import Mathlib

/-!
Verification of the Lyapunov-Markus diagram renderer (src/main.rs).

Modelling conventions:
- `f64` values are modelled by `ℚ`.  Every claim below is about the
  control-flow and arithmetic structure of the program (branch selection,
  loop iteration counts, affine formulas, fold structure), which is
  identical over `ℚ`; rounding error of `f64` is not at issue in any claim.
- `f64::ln` is modelled by an abstract function parameter `log : ℚ → ℚ`
  threaded through the estimator; no claim depends on properties of `ln`
  itself, only on where the program calls it and what it does with the sum.
- The `panic!` on an invalid sequence symbol and the potential
  out-of-bounds indexing in `color_gradient` are modelled by `Except` /
  `Option` results.
- Machine integers: pixel colors are `u32` values built from bytes shifted
  by 16/8/0; the shift result is reduced `% 2^32` where the source computes
  in `u32`.
-/

namespace Ljapunow

/-- Source line 14: `const WIDTH: usize = 800`. -/
def WIDTH : ℕ := 800

/-- Source line 15: `const HEIGHT: usize = 800`. -/
def HEIGHT : ℕ := 800

/-- Source line 16: `const ITERATION_DEPTH: u32 = 300`. -/
def ITERATION_DEPTH : ℕ := 300

/-- Source line 17: `const WARMUP: u32 = 20`. -/
def WARMUP : ℕ := 20

/-- Source lines 134-136: `fn map(val, start1, stop1, start2, stop2) -> f64
\{ start2 + (stop2 - start2) * ((val - start1) / (stop1 - start1)) }`. -/
def map (val start1 stop1 start2 stop2 : ℚ) : ℚ :=
  start2 + (stop2 - start2) * ((val - start1) / (stop1 - start1))

/-- Rust `f64::round`: rounds half away from zero. -/
def rustRound (q : ℚ) : ℤ :=
  if 0 ≤ q then Int.floor (q + 1/2) else -Int.floor (-q + 1/2)

/-- Rust `f64::clamp(lo, hi)`: `if x < lo then lo else if x > hi then hi else x`. -/
def intClamp (z lo hi : ℤ) : ℤ :=
  if z < lo then lo else if hi < z then hi else z

/-- Rust `f64 as u32` cast: truncates toward zero, saturating at `[0, 2^32-1]`. -/
def ratToU32 (q : ℚ) : ℕ :=
  if q < 0 then 0
  else if ((2:ℚ)^32 - 1) < q then 2^32 - 1
  else (Int.floor q).toNat

/-- Source lines 139-148: `fn map_byte`; returns 0 for values outside
`[start1, stop1]`, otherwise `map`-s, rounds, clamps to `[0, 255]`, casts to
`u32` and shifts left by `shift` (a `u32` operation, hence `% 2^32`). -/
def map_byte (val start1 stop1 start2 stop2 : ℚ) (shift : ℕ) : ℕ :=
  if val < start1 ∨ stop1 < val then 0
  else ((intClamp (rustRound (map val start1 stop1 start2 stop2)) 0 255).toNat * 2^shift) % 2^32

/-- Source line 150: `const RED_SHIFT: u32 = 16`. -/
def RED_SHIFT : ℕ := 16

/-- Source line 151: `const GREEN_SHIFT: u32 = 8`. -/
def GREEN_SHIFT : ℕ := 8

/-- Source line 152: `const BLUE_SHIFT: u32 = 0`. -/
def BLUE_SHIFT : ℕ := 0

/-- Source lines 155-159: `fn color_ramp(lambda)`, the sum of the three
shifted channel bytes. -/
def color_ramp (lambda : ℚ) : ℕ :=
  map_byte lambda (-2) (1/2) 196 255 RED_SHIFT
    + map_byte lambda (-1/2) 0 0 255 GREEN_SHIFT
    + map_byte lambda (-5/2) (1/2) 10 55 BLUE_SHIFT

/-- Source line 164: the five gradient stop colors. -/
def gradient : List ℕ := [0x161c31, 0x613c62, 0xb75f74, 0xf29a6b, 0xfaec70]

/-- Source line 165: the six breakpoints `[-2.5, -1.5, -0.8, -0.2, 0.0, 4.0]`. -/
def ranges : List ℚ := [-5/2, -3/2, -4/5, -1/5, 0, 4]

/-- Source lines 168-171: `while pos < ranges.len() && ranges[pos] < lambda
\{ pos += 1 }`.  The loop increments `pos` at most `ranges.length` times in
total, so running it with `ranges.length` units of fuel from `pos = 1` is the
exact loop. -/
def gradScan (lambda : ℚ) : ℕ → ℕ → ℕ
  | 0, pos => pos
  | fuel+1, pos =>
    if pos < ranges.length ∧ ranges.getD pos 0 < lambda then gradScan lambda fuel (pos+1)
    else pos

/-- The final value of `pos` in `color_gradient` (scan starts at `pos = 1`). -/
def gradientPos (lambda : ℚ) : ℕ := gradScan lambda ranges.length 1

/-- Source lines 163-178: `fn color_gradient(lambda)`.  The four array reads
`gradient[pos-1]`, `gradient[pos]`, `ranges[pos-1]`, `ranges[pos]` panic when
out of bounds; that is modelled by `none`. -/
def color_gradient (lambda : ℚ) : Option ℕ :=
  if gradientPos lambda - 1 < gradient.length ∧ gradientPos lambda < gradient.length
      ∧ gradientPos lambda - 1 < ranges.length ∧ gradientPos lambda < ranges.length then
    some (ratToU32 (map lambda
      (ranges.getD (gradientPos lambda - 1) 0) (ranges.getD (gradientPos lambda) 0)
      ((gradient.getD (gradientPos lambda - 1) 0 : ℕ) : ℚ)
      ((gradient.getD (gradientPos lambda) 0 : ℕ) : ℚ)))
  else none

/-- Source line 58: `let r = |n| sequence[n as usize % seq_len]`. -/
def cyclicR (values : List ℚ) (n : ℕ) : ℚ := values.getD (n % values.length) 0

/-- Source lines 63-77: the estimator loop, translated with explicit fuel
(the `for n in 0..ITERATION_DEPTH` loop runs the body at most
`ITERATION_DEPTH` times; `n` is the loop counter).  Returns the accumulated
sum together with the number of loop bodies executed.  Body: accumulate
`ln(abs(r(n) * (1 - 2x)))` when `n > WARMUP || x != 0.5`, then iterate `x`,
then break when `lambda > 1e12 || lambda < -1e12`. -/
def lyapGoCode (log : ℚ → ℚ) (r : ℕ → ℚ) : ℕ → ℕ → ℚ → ℚ → ℚ × ℕ
  | 0, n, _x, lambda => (lambda, n)
  | fuel+1, n, x, lambda =>
    let lambda' := if n > WARMUP ∨ x ≠ 1/2 then lambda + log (abs (r n * (1 - 2*x))) else lambda
    let x' := r n * x * (1 - x)
    if lambda' > (10:ℚ)^12 ∨ lambda' < -(10:ℚ)^12 then (lambda', n+1)
    else lyapGoCode log r fuel (n+1) x' lambda'

/-- The estimator run of source lines 60-77 for one pixel, starting from
`x = 0.5`, `lambda = 0.0`, `n = 0`. -/
def lyapRun (log : ℚ → ℚ) (values : List ℚ) : ℚ × ℕ :=
  lyapGoCode log (cyclicR values) ITERATION_DEPTH 0 (1/2) 0

/-- The accumulated (un-normalized) exponent sum of one pixel's loop. -/
def lyapAcc (log : ℚ → ℚ) (values : List ℚ) : ℚ := (lyapRun log values).1

/-- The number of loop bodies the estimator loop executed for one pixel. -/
def lyapSteps (log : ℚ → ℚ) (values : List ℚ) : ℕ := (lyapRun log values).2

/-- Source line 78: `lambda /= (ITERATION_DEPTH - WARMUP) as f64` (u32
subtraction, then cast). -/
def lyapunovCode (log : ℚ → ℚ) (values : List ℚ) : ℚ :=
  lyapAcc log values / ((ITERATION_DEPTH - WARMUP : ℕ) : ℚ)

/-- Modelled from the spec, section 4.3 (LyapunovEstimator), steps 1-3:
initialize `x = 0.5`, `lambda = 0`; for `n` from 0 to `iterationDepth - 1`:
(a) if `n > warmup` or `x != 0.5` then `lambda += ln(abs(r(n) * (1 - 2x)))`;
(b) `x := r(n) * x * (1 - x)` regardless; (c) stop when
`abs(lambda) > divergenceBound`.  Used only as the comparison point of the
refinement claim C1. -/
def lyapGoSpec (log : ℚ → ℚ) (r : ℕ → ℚ) (warmup : ℕ) (bound : ℚ) :
    ℕ → ℕ → ℚ → ℚ → ℚ × ℕ
  | 0, n, _x, lambda => (lambda, n)
  | fuel+1, n, x, lambda =>
    let lambda' := if n > warmup ∨ x ≠ 1/2 then lambda + log (abs (r n * (1 - 2*x))) else lambda
    let x' := r n * x * (1 - x)
    if bound < abs lambda' then (lambda', n+1)
    else lyapGoSpec log r warmup bound fuel (n+1) x' lambda'

/-- Modelled from the spec, section 4.3 step 3: the final `lambda` is the
accumulated sum divided by `(iterationDepth - warmup)`, with `r` the cyclic
lookup `values[n mod length]` of section 4.2. -/
def lyapunovSpec (log : ℚ → ℚ) (values : List ℚ) (iterationDepth warmup : ℕ) (bound : ℚ) : ℚ :=
  (lyapGoSpec log (cyclicR values) warmup bound iterationDepth 0 (1/2) 0).1
    / ((iterationDepth : ℚ) - (warmup : ℚ))

/-- Reference trajectory of the estimator loop without the divergence break:
state `(x, lambda)` after `k` executions of the loop body of source lines
63-72.  Used to state when the break of lines 74-76 fires. -/
def lyapRef (log : ℚ → ℚ) (r : ℕ → ℚ) : ℕ → ℚ × ℚ
  | 0 => (1/2, 0)
  | k+1 =>
    let x := (lyapRef log r k).1
    let lambda := (lyapRef log r k).2
    (r k * x * (1 - x),
      if k > WARMUP ∨ x ≠ 1/2 then lambda + log (abs (r k * (1 - 2*x))) else lambda)

/-- The error of source line 55: `panic!("Invalid sequence")` on a symbol
other than 'A' or 'B'. -/
inductive RenderError
  | invalidSequenceSymbol

/-- Source lines 50-57: per pixel, the rule symbols are mapped to the pixel's
`(a, b)` values; a symbol other than 'A'/'B' panics. -/
def resolveSequence (a b : ℚ) : List Char → Except RenderError (List ℚ)
  | [] => Except.ok []
  | c :: cs =>
    if c = 'A' then Except.map (fun vs => a :: vs) (resolveSequence a b cs)
    else if c = 'B' then Except.map (fun vs => b :: vs) (resolveSequence a b cs)
    else Except.error RenderError.invalidSequenceSymbol

/-- Source lines 89-95: `*pixel = if lambda > 0.0 \{ 0x00 } else
\{ strategy(lambda) }`; the active strategy in the source is `color_ramp`. -/
def writePixel (strategy : ℚ → ℕ) (lambda : ℚ) : ℕ :=
  if lambda > 0 then 0x00 else strategy lambda

/-- Source line 46: `map((i % WIDTH) as f64, 0., WIDTH as f64, x_min, x_max)`
with `x_min = 3.4`, `x_max = 4.0` (lines 31-32). -/
def pixelA (i : ℕ) : ℚ := map ((i % WIDTH : ℕ) : ℚ) 0 (WIDTH : ℚ) (17/5) 4

/-- Source line 47: `map((i / HEIGHT) as f64, 0., HEIGHT as f64, y_min, y_max)`
with `y_min = 2.5`, `y_max = 3.4` (lines 33-34). -/
def pixelB (i : ℕ) : ℚ := map ((i / HEIGHT : ℕ) : ℚ) 0 (HEIGHT : ℚ) (5/2) (17/5)

/-- Source lines 44-95: the full per-pixel pipeline of the sweep body:
coordinates, sequence resolution (which can panic), estimation,
sentinel-or-strategy coloring. -/
def processPixel (log : ℚ → ℚ) (rule : List Char) (i : ℕ) : Except RenderError ℕ :=
  match resolveSequence (pixelA i) (pixelB i) rule with
  | Except.error e => Except.error e
  | Except.ok values => Except.ok (writePixel color_ramp (lyapunovCode log values))

/-- Source line 40: the sweep over pixel indices; a panic in any pixel's body
aborts the whole run (modelled by propagating the first error). -/
def sweep (log : ℚ → ℚ) (rule : List Char) : List ℕ → Except RenderError (List ℕ)
  | [] => Except.ok []
  | i :: is =>
    match processPixel log rule i with
    | Except.error e => Except.error e
    | Except.ok c =>
      match sweep log rule is with
      | Except.error e => Except.error e
      | Except.ok cs => Except.ok (c :: cs)

/-- The whole render: the sweep over all `WIDTH * HEIGHT` pixel indices in
order. -/
def render (log : ℚ → ℚ) (rule : List Char) : Except RenderError (List ℕ) :=
  sweep log rule (List.range (WIDTH * HEIGHT))

/-- Source lines 80-85: the running `(lambda_min, lambda_max)` update. -/
def minMaxUpdate (p : ℚ × ℚ) (lambda : ℚ) : ℚ × ℚ :=
  (if lambda < p.1 then lambda else p.1, if lambda > p.2 then lambda else p.2)

/-- Source lines 36-37 and 80-85: the diagnostic pair printed on line 100,
as a fold of `minMaxUpdate` over the `lambda` values of the pixels processed,
starting from the initial accumulators `lambda_min = 5.0e5`,
`lambda_max = 0.0`. -/
def reportMinMax (lambdas : List ℚ) : ℚ × ℚ :=
  List.foldl minMaxUpdate (5 * 10^5, 0) lambdas

/-- The divergence test of source line 74 is the same as comparing `abs`. -/
theorem divergeIff (l b : ℚ) : (l > b ∨ l < -b) ↔ b < abs l := by
  rw [abs_eq_max_neg, lt_max_iff]
  constructor
  · rintro (h | h)
    · exact Or.inl h
    · exact Or.inr (by linarith)
  · rintro (h | h)
    · exact Or.inl h
    · exact Or.inr (by linarith)

/-- C9: with width = height = 800 and the fixed ranges x ∈ [3.4, 4.0],
y ∈ [2.5, 3.4], pixel index 0 (row 0, column 0) maps to exactly
(a, b) = (3.4, 2.5). -/
theorem c9_pixel_zero_coords : (pixelA 0, pixelB 0) = ((17/5 : ℚ), (5/2 : ℚ)) := by
  norm_num [pixelA, pixelB, map, WIDTH, HEIGHT]

/-- C7: for every pixel whose estimated lambda is strictly positive the
written color is the sentinel 0x00 regardless of the active strategy, and
the strategy's color is applied exactly when lambda ≤ 0. -/
theorem c7_sentinel_override (strategy : ℚ → ℕ) (lambda : ℚ) :
    (0 < lambda → writePixel strategy lambda = 0x00)
    ∧ (lambda ≤ 0 → writePixel strategy lambda = strategy lambda) := by
  constructor
  · intro h
    simp [writePixel, h]
  · intro h
    simp [writePixel, not_lt.mpr h]

/-- Witness for C7 at the source's active strategy `color_ramp`. -/
theorem c7_sentinel_override_witness :
    writePixel color_ramp 1 = 0x00 ∧ writePixel color_ramp (-1) = color_ramp (-1) :=
  ⟨(c7_sentinel_override color_ramp 1).1 (by norm_num),
   (c7_sentinel_override color_ramp (-1)).2 (by norm_num)⟩

/-- C8: `map` is the affine transform
`dstLo + (dstHi - dstLo) * ((value - srcLo) / (srcHi - srcLo))`; under the
precondition `srcHi ≠ srcLo` it maps `srcLo` to `dstLo` and `srcHi` to
`dstHi`, and it is strictly monotonic (strictly increasing or strictly
decreasing) in its first argument when `dstHi > dstLo`. -/
theorem c8_map_affine (lo hi lo2 hi2 : ℚ) (h : lo ≠ hi) :
    map lo lo hi lo2 hi2 = lo2 ∧ map hi lo hi lo2 hi2 = hi2
    ∧ (lo2 < hi2 →
        StrictMono (fun v => map v lo hi lo2 hi2) ∨ StrictAnti (fun v => map v lo hi lo2 hi2)) := by
  have hne : hi - lo ≠ 0 := sub_ne_zero.mpr (Ne.symm h)
  refine ⟨?_, ?_, ?_⟩
  · simp [map]
  · simp only [map]
    rw [div_self hne]
    ring
  · intro hd
    rcases lt_or_gt_of_ne h with hlo | hlo
    · refine Or.inl ?_
      intro v1 v2 hv
      simp only [map]
      have hpos : 0 < hi - lo := sub_pos.mpr hlo
      have hdiv : (v1 - lo) / (hi - lo) < (v2 - lo) / (hi - lo) :=
        (div_lt_div_iff_of_pos_right hpos).mpr (by linarith)
      have := mul_lt_mul_of_pos_left hdiv (sub_pos.mpr hd)
      linarith
    · refine Or.inr ?_
      intro v1 v2 hv
      simp only [map]
      have hneg : hi - lo < 0 := sub_neg.mpr hlo
      have hdiv : (v2 - lo) / (hi - lo) < (v1 - lo) / (hi - lo) :=
        div_lt_div_of_neg_of_lt hneg (by linarith)
      have := mul_lt_mul_of_pos_left hdiv (sub_pos.mpr hd)
      linarith

/-- Witness for C8 at the concrete range pair ([0, 1] → [2, 5]). -/
theorem c8_map_affine_witness :
    map 0 0 1 2 5 = 2 ∧ map 1 0 1 2 5 = 5
    ∧ (StrictMono (fun v => map v 0 1 2 5) ∨ StrictAnti (fun v => map v 0 1 2 5)) :=
  ⟨(c8_map_affine 0 1 2 5 (by norm_num)).1, (c8_map_affine 0 1 2 5 (by norm_num)).2.1,
   (c8_map_affine 0 1 2 5 (by norm_num)).2.2 (by norm_num)⟩

/-- Rounding half away from zero is monotone. -/
theorem rustRound_mono {x y : ℚ} (h : x ≤ y) : rustRound x ≤ rustRound y := by
  unfold rustRound
  by_cases hx : 0 ≤ x
  · rw [if_pos hx, if_pos (le_trans hx h)]
    exact Int.floor_le_floor (by linarith)
  · rw [if_neg hx]
    by_cases hy : 0 ≤ y
    · rw [if_pos hy]
      have h1 : (0:ℤ) ≤ Int.floor (y + 1/2) := by
        apply Int.le_floor.mpr
        push_cast
        linarith
      have h2 : (0:ℤ) ≤ Int.floor (-x + 1/2) := by
        apply Int.le_floor.mpr
        push_cast
        have := lt_of_not_ge hx
        linarith
      omega
    · rw [if_neg hy]
      have : Int.floor (-y + 1/2) ≤ Int.floor (-x + 1/2) := Int.floor_le_floor (by linarith)
      omega

/-- The clamp of source line 146 is monotone (Rust's `clamp` requires
`lo ≤ hi`). -/
theorem intClamp_mono (lo hi : ℤ) (hlh : lo ≤ hi) {x y : ℤ} (h : x ≤ y) :
    intClamp x lo hi ≤ intClamp y lo hi := by
  unfold intClamp
  split_ifs <;> omega

/-- The clamp of source line 146 lands in `[0, 255]`. -/
theorem intClamp_mem (x : ℤ) : 0 ≤ intClamp x 0 255 ∧ intClamp x 0 255 ≤ 255 := by
  unfold intClamp
  split_ifs <;> omega

/-- `map` is monotone in its first argument for an increasing channel. -/
theorem map_mono {s1 t1 s2 t2 v1 v2 : ℚ} (h1 : s1 < t1) (h2 : s2 ≤ t2) (hv : v1 ≤ v2) :
    map v1 s1 t1 s2 t2 ≤ map v2 s1 t1 s2 t2 := by
  simp only [map]
  have hpos : 0 < t1 - s1 := sub_pos.mpr h1
  have hdiv : (v1 - s1) / (t1 - s1) ≤ (v2 - s1) / (t1 - s1) :=
    (div_le_div_iff_of_pos_right hpos).mpr (by linarith)
  have := mul_le_mul_of_nonneg_left hdiv (sub_nonneg.mpr h2)
  linarith

/-- `map` is antitone in its first argument for a decreasing channel. -/
theorem map_anti {s1 t1 s2 t2 v1 v2 : ℚ} (h1 : s1 < t1) (h2 : t2 ≤ s2) (hv : v1 ≤ v2) :
    map v2 s1 t1 s2 t2 ≤ map v1 s1 t1 s2 t2 := by
  simp only [map]
  have hpos : 0 < t1 - s1 := sub_pos.mpr h1
  have hdiv : (v1 - s1) / (t1 - s1) ≤ (v2 - s1) / (t1 - s1) :=
    (div_le_div_iff_of_pos_right hpos).mpr (by linarith)
  have := mul_le_mul_of_nonpos_left hdiv (sub_nonpos.mpr h2)
  linarith

/-- Inside `[start1, stop1]` the guard of source line 140 does not fire. -/
theorem map_byte_inside {val s1 t1 s2 t2 : ℚ} {shift : ℕ} (hs : s1 ≤ val) (ht : val ≤ t1) :
    map_byte val s1 t1 s2 t2 shift
      = ((intClamp (rustRound (map val s1 t1 s2 t2)) 0 255).toNat * 2^shift) % 2^32 := by
  unfold map_byte
  rw [if_neg]
  push_neg
  exact ⟨hs, ht⟩

/-- A clamped channel byte shifted by at most 24 bits stays below `2^32`. -/
theorem shifted_byte_lt {c shift : ℕ} (hc : c ≤ 255) (hs : shift ≤ 24) : c * 2^shift < 2^32 := by
  calc c * 2^shift ≤ 255 * 2^24 := Nat.mul_le_mul hc (Nat.pow_le_pow_right (by norm_num) hs)
  _ < 2^32 := by norm_num

/-- C6: for every lambda and per-channel tuple, a lambda outside
`[inputLo, inputHi]` contributes exactly 0; inside, the channel value is
`round(map(lambda, ...))` clamped to `[0, 255]` and shifted into the
channel's bit position; and inside the interval the channel output is
monotone in lambda (non-decreasing for an increasing output range,
non-increasing for a decreasing one). -/
theorem c6_ramp_channel (val s1 t1 s2 t2 : ℚ) (shift : ℕ) :
    ((val < s1 ∨ t1 < val) → map_byte val s1 t1 s2 t2 shift = 0)
    ∧ (s1 ≤ val → val ≤ t1 →
        map_byte val s1 t1 s2 t2 shift
          = ((intClamp (rustRound (map val s1 t1 s2 t2)) 0 255).toNat * 2^shift) % 2^32)
    ∧ (∀ v1 v2 : ℚ, s1 ≤ v1 → v1 ≤ v2 → v2 ≤ t1 → shift ≤ 24 →
        ((s2 ≤ t2 → map_byte v1 s1 t1 s2 t2 shift ≤ map_byte v2 s1 t1 s2 t2 shift)
          ∧ (t2 ≤ s2 → map_byte v2 s1 t1 s2 t2 shift ≤ map_byte v1 s1 t1 s2 t2 shift))) := by
  refine ⟨?_, ?_, ?_⟩
  · intro h
    unfold map_byte
    rw [if_pos h]
  · intro hs ht
    exact map_byte_inside hs ht
  · intro v1 v2 hv1 hv12 hv2 hshift
    have hst : s1 ≤ t1 := le_trans hv1 (le_trans hv12 hv2)
    rcases eq_or_lt_of_le hst with heq | hlt
    · have hv : v1 = v2 := by
        apply le_antisymm hv12
        rw [← heq] at hv2
        exact le_trans hv2 hv1
      rw [hv]
      exact ⟨fun _ => le_refl _, fun _ => le_refl _⟩
    · have key : ∀ w1 w2 : ℚ, s1 ≤ w1 → w1 ≤ t1 → s1 ≤ w2 → w2 ≤ t1 →
          map w1 s1 t1 s2 t2 ≤ map w2 s1 t1 s2 t2 →
          map_byte w1 s1 t1 s2 t2 shift ≤ map_byte w2 s1 t1 s2 t2 shift := by
        intro w1 w2 ha1 hb1 ha2 hb2 hm
        rw [map_byte_inside ha1 hb1, map_byte_inside ha2 hb2]
        have hc := intClamp_mono 0 255 (by norm_num) (rustRound_mono hm)
        have ht1 := Int.toNat_le_toNat hc
        have hm1 := intClamp_mem (rustRound (map w1 s1 t1 s2 t2))
        have hm2 := intClamp_mem (rustRound (map w2 s1 t1 s2 t2))
        have hb1' : (intClamp (rustRound (map w1 s1 t1 s2 t2)) 0 255).toNat ≤ 255 := by omega
        have hb2' : (intClamp (rustRound (map w2 s1 t1 s2 t2)) 0 255).toNat ≤ 255 := by omega
        rw [Nat.mod_eq_of_lt (shifted_byte_lt hb1' hshift),
            Nat.mod_eq_of_lt (shifted_byte_lt hb2' hshift)]
        exact Nat.mul_le_mul_right _ ht1
      constructor
      · intro hdir
        exact key v1 v2 hv1 (le_trans hv12 hv2) (le_trans hv1 hv12) hv2 (map_mono hlt hdir hv12)
      · intro hdir
        exact key v2 v1 (le_trans hv1 hv12) hv2 hv1 (le_trans hv12 hv2) (map_anti hlt hdir hv12)

/-- Witness for C6 at the source's green channel tuple (-0.5, 0.0, 0.0, 255.0)
with shift 8. -/
theorem c6_ramp_channel_witness :
    map_byte 1 (-1/2) 0 0 255 8 = 0
    ∧ map_byte (-1/4) (-1/2) 0 0 255 8
        = ((intClamp (rustRound (map (-1/4) (-1/2) 0 0 255)) 0 255).toNat * 2^8) % 2^32
    ∧ map_byte (-1/4) (-1/2) 0 0 255 8 ≤ map_byte (-1/8) (-1/2) 0 0 255 8 :=
  ⟨(c6_ramp_channel 1 (-1/2) 0 0 255 8).1 (by norm_num),
   (c6_ramp_channel (-1/4) (-1/2) 0 0 255 8).2.1 (by norm_num) (by norm_num),
   ((c6_ramp_channel 0 (-1/2) 0 0 255 8).2.2 (-1/4) (-1/8)
      (by norm_num) (by norm_num) (by norm_num) (by norm_num)).1 (by norm_num)⟩

theorem ranges_len : ranges.length = 6 := rfl

theorem gradient_len : gradient.length = 5 := rfl

theorem ranges_getD_1 : ranges.getD 1 0 = -3/2 := rfl

theorem ranges_getD_2 : ranges.getD 2 0 = -4/5 := rfl

theorem ranges_getD_3 : ranges.getD 3 0 = -1/5 := rfl

theorem ranges_getD_4 : ranges.getD 4 0 = 0 := rfl

theorem ranges_getD_5 : ranges.getD 5 0 = 4 := rfl

/-- One unfolding of the scan loop of source lines 168-171. -/
theorem gradScan_succ (lam : ℚ) (fuel pos : ℕ) :
    gradScan lam (fuel+1) pos
      = if pos < ranges.length ∧ ranges.getD pos 0 < lam then gradScan lam fuel (pos+1)
        else pos := rfl

theorem gradScan_go (lam : ℚ) (fuel pos : ℕ) (h : ranges.getD pos 0 < lam)
    (hlen : pos < ranges.length) :
    gradScan lam (fuel+1) pos = gradScan lam fuel (pos+1) := by
  rw [gradScan_succ, if_pos ⟨hlen, h⟩]

theorem gradScan_stop (lam : ℚ) (fuel pos : ℕ)
    (h : ¬(pos < ranges.length ∧ ranges.getD pos 0 < lam)) :
    gradScan lam (fuel+1) pos = pos := by
  rw [gradScan_succ, if_neg h]

theorem gradientPos_def (lam : ℚ) : gradientPos lam = gradScan lam 6 1 := rfl

theorem gradientPos_eq_one {lam : ℚ} (h : lam ≤ -3/2) : gradientPos lam = 1 := by
  have s1 : gradScan lam 6 1 = 1 :=
    gradScan_stop lam 5 1 (by
      rintro ⟨-, hlt⟩
      rw [ranges_getD_1] at hlt
      linarith)
  rw [gradientPos_def, s1]

theorem gradientPos_eq_two {lam : ℚ} (h1 : -3/2 < lam) (h2 : lam ≤ -4/5) :
    gradientPos lam = 2 := by
  have s1 : gradScan lam 6 1 = gradScan lam 5 2 :=
    gradScan_go lam 5 1 (by rw [ranges_getD_1]; linarith) (by rw [ranges_len]; omega)
  have s2 : gradScan lam 5 2 = 2 :=
    gradScan_stop lam 4 2 (by
      rintro ⟨-, hlt⟩
      rw [ranges_getD_2] at hlt
      linarith)
  rw [gradientPos_def, s1, s2]

theorem gradientPos_eq_three {lam : ℚ} (h1 : -4/5 < lam) (h2 : lam ≤ -1/5) :
    gradientPos lam = 3 := by
  have s1 : gradScan lam 6 1 = gradScan lam 5 2 :=
    gradScan_go lam 5 1 (by rw [ranges_getD_1]; linarith) (by rw [ranges_len]; omega)
  have s2 : gradScan lam 5 2 = gradScan lam 4 3 :=
    gradScan_go lam 4 2 (by rw [ranges_getD_2]; linarith) (by rw [ranges_len]; omega)
  have s3 : gradScan lam 4 3 = 3 :=
    gradScan_stop lam 3 3 (by
      rintro ⟨-, hlt⟩
      rw [ranges_getD_3] at hlt
      linarith)
  rw [gradientPos_def, s1, s2, s3]

theorem gradientPos_eq_four {lam : ℚ} (h1 : -1/5 < lam) (h2 : lam ≤ 0) :
    gradientPos lam = 4 := by
  have s1 : gradScan lam 6 1 = gradScan lam 5 2 :=
    gradScan_go lam 5 1 (by rw [ranges_getD_1]; linarith) (by rw [ranges_len]; omega)
  have s2 : gradScan lam 5 2 = gradScan lam 4 3 :=
    gradScan_go lam 4 2 (by rw [ranges_getD_2]; linarith) (by rw [ranges_len]; omega)
  have s3 : gradScan lam 4 3 = gradScan lam 3 4 :=
    gradScan_go lam 3 3 (by rw [ranges_getD_3]; linarith) (by rw [ranges_len]; omega)
  have s4 : gradScan lam 3 4 = 4 :=
    gradScan_stop lam 2 4 (by
      rintro ⟨-, hlt⟩
      rw [ranges_getD_4] at hlt
      linarith)
  rw [gradientPos_def, s1, s2, s3, s4]

theorem gradientPos_eq_five {lam : ℚ} (h1 : 0 < lam) (h2 : lam ≤ 4) :
    gradientPos lam = 5 := by
  have s1 : gradScan lam 6 1 = gradScan lam 5 2 :=
    gradScan_go lam 5 1 (by rw [ranges_getD_1]; linarith) (by rw [ranges_len]; omega)
  have s2 : gradScan lam 5 2 = gradScan lam 4 3 :=
    gradScan_go lam 4 2 (by rw [ranges_getD_2]; linarith) (by rw [ranges_len]; omega)
  have s3 : gradScan lam 4 3 = gradScan lam 3 4 :=
    gradScan_go lam 3 3 (by rw [ranges_getD_3]; linarith) (by rw [ranges_len]; omega)
  have s4 : gradScan lam 3 4 = gradScan lam 2 5 :=
    gradScan_go lam 2 4 (by rw [ranges_getD_4]; linarith) (by rw [ranges_len]; omega)
  have s5 : gradScan lam 2 5 = 5 :=
    gradScan_stop lam 1 5 (by
      rintro ⟨-, hlt⟩
      rw [ranges_getD_5] at hlt
      linarith)
  rw [gradientPos_def, s1, s2, s3, s4, s5]

theorem gradientPos_eq_six {lam : ℚ} (h1 : 4 < lam) : gradientPos lam = 6 := by
  have s1 : gradScan lam 6 1 = gradScan lam 5 2 :=
    gradScan_go lam 5 1 (by rw [ranges_getD_1]; linarith) (by rw [ranges_len]; omega)
  have s2 : gradScan lam 5 2 = gradScan lam 4 3 :=
    gradScan_go lam 4 2 (by rw [ranges_getD_2]; linarith) (by rw [ranges_len]; omega)
  have s3 : gradScan lam 4 3 = gradScan lam 3 4 :=
    gradScan_go lam 3 3 (by rw [ranges_getD_3]; linarith) (by rw [ranges_len]; omega)
  have s4 : gradScan lam 3 4 = gradScan lam 2 5 :=
    gradScan_go lam 2 4 (by rw [ranges_getD_4]; linarith) (by rw [ranges_len]; omega)
  have s5 : gradScan lam 2 5 = gradScan lam 1 6 :=
    gradScan_go lam 1 5 (by rw [ranges_getD_5]; linarith) (by rw [ranges_len]; omega)
  have s6 : gradScan lam 1 6 = 6 :=
    gradScan_stop lam 0 6 (by
      rintro ⟨hlen, -⟩
      rw [ranges_len] at hlen
      omega)
  rw [gradientPos_def, s1, s2, s3, s4, s5, s6]

/-- When the final scan position is between 1 and 4, all four array reads of
source lines 174-177 are in bounds and `color_gradient` interpolates. -/
theorem color_gradient_eq (lam : ℚ) (p : ℕ) (hp : gradientPos lam = p)
    (h1 : 1 ≤ p) (h4 : p ≤ 4) :
    color_gradient lam
      = some (ratToU32 (map lam (ranges.getD (p-1) 0) (ranges.getD p 0)
          ((gradient.getD (p-1) 0 : ℕ) : ℚ) ((gradient.getD p 0 : ℕ) : ℚ))) := by
  unfold color_gradient
  rw [hp, if_pos]
  refine ⟨?_, ?_, ?_, ?_⟩ <;> (first | rw [gradient_len] | rw [ranges_len]) <;> omega

/-- C5: the linear scan (ascending, starting at index 1) selects the smallest
pos with breakpoints[pos] ≥ lambda and interpolates between stops[pos-1] and
stops[pos] over [breakpoints[pos-1], breakpoints[pos]]; in particular
lambda = -0.3 selects pos = 3 and yields a value strictly between the two
corresponding stop colors 0xb75f74 and 0xf29a6b. -/
theorem c5_gradient_bracket (lam : ℚ) :
    (lam ≤ 4 →
      1 ≤ gradientPos lam ∧ gradientPos lam ≤ 5
      ∧ lam ≤ ranges.getD (gradientPos lam) 0
      ∧ (∀ q, 1 ≤ q → q < gradientPos lam → ranges.getD q 0 < lam))
    ∧ (lam ≤ 0 →
      color_gradient lam
        = some (ratToU32 (map lam (ranges.getD (gradientPos lam - 1) 0)
            (ranges.getD (gradientPos lam) 0)
            ((gradient.getD (gradientPos lam - 1) 0 : ℕ) : ℚ)
            ((gradient.getD (gradientPos lam) 0 : ℕ) : ℚ))))
    ∧ gradientPos (-3/10) = 3
    ∧ color_gradient (-3/10) = some 15252289
    ∧ (0xb75f74 : ℕ) < 15252289 ∧ (15252289 : ℕ) < 0xf29a6b := by
  have hp3 : gradientPos ((-3/10 : ℚ)) = 3 := gradientPos_eq_three (by norm_num) (by norm_num)
  refine ⟨?_, ?_, hp3, ?_, by norm_num, by norm_num⟩
  · intro hle4
    rcases le_or_lt lam (-3/2) with hc | hc
    · rw [gradientPos_eq_one hc, ranges_getD_1]
      refine ⟨by omega, by omega, hc, ?_⟩
      intro q hq1 hq2
      omega
    · rcases le_or_lt lam (-4/5) with hd | hd
      · rw [gradientPos_eq_two hc hd, ranges_getD_2]
        refine ⟨by omega, by omega, hd, ?_⟩
        intro q hq1 hq2
        interval_cases q
        rw [ranges_getD_1]
        linarith
      · rcases le_or_lt lam (-1/5) with he | he
        · rw [gradientPos_eq_three hd he, ranges_getD_3]
          refine ⟨by omega, by omega, he, ?_⟩
          intro q hq1 hq2
          interval_cases q
          · rw [ranges_getD_1]
            linarith
          · rw [ranges_getD_2]
            linarith
        · rcases le_or_lt lam 0 with hf | hf
          · rw [gradientPos_eq_four he hf, ranges_getD_4]
            refine ⟨by omega, by omega, hf, ?_⟩
            intro q hq1 hq2
            interval_cases q
            · rw [ranges_getD_1]
              linarith
            · rw [ranges_getD_2]
              linarith
            · rw [ranges_getD_3]
              linarith
          · rw [gradientPos_eq_five hf hle4, ranges_getD_5]
            refine ⟨by omega, by omega, hle4, ?_⟩
            intro q hq1 hq2
            interval_cases q
            · rw [ranges_getD_1]
              linarith
            · rw [ranges_getD_2]
              linarith
            · rw [ranges_getD_3]
              linarith
            · rw [ranges_getD_4]
              linarith
  · intro hle0
    rcases le_or_lt lam (-3/2) with hc | hc
    · have hp := gradientPos_eq_one hc
      rw [hp, color_gradient_eq lam 1 hp (by omega) (by omega)]
    · rcases le_or_lt lam (-4/5) with hd | hd
      · have hp := gradientPos_eq_two hc hd
        rw [hp, color_gradient_eq lam 2 hp (by omega) (by omega)]
      · rcases le_or_lt lam (-1/5) with he | he
        · have hp := gradientPos_eq_three hd he
          rw [hp, color_gradient_eq lam 3 hp (by omega) (by omega)]
        · have hp := gradientPos_eq_four he hle0
          rw [hp, color_gradient_eq lam 4 hp (by omega) (by omega)]
  · rw [color_gradient_eq (-3/10) 3 hp3 (by omega) (by omega)]
    rw [ranges_getD_2, ranges_getD_3]
    norm_num [gradient, ratToU32, map]
    omega

/-- Witness for C5 at lambda = -0.3. -/
theorem c5_gradient_bracket_witness :
    gradientPos ((-3/10 : ℚ)) ≤ 5
    ∧ (-3/10 : ℚ) ≤ ranges.getD (gradientPos ((-3/10 : ℚ))) 0
    ∧ ranges.getD 2 0 < (-3/10 : ℚ)
    ∧ color_gradient ((-3/10 : ℚ)) = some 15252289 := by
  obtain ⟨hsel, -, hp3, hcg, -, -⟩ := c5_gradient_bracket (-3/10)
  obtain ⟨-, h2, h3, h4⟩ := hsel (by norm_num)
  refine ⟨h2, h3, h4 2 (by omega) ?_, hcg⟩
  rw [hp3]
  omega

/-- C10: for lambda ≤ 0 (the only values reaching color_gradient under the
sentinel guard) the scan ends with pos between 1 and 4 and both stop lookups
are inside the 5-element stop array, so no out-of-bounds access occurs; for
a lambda above 4.0 the scan reaches pos = 6 and the stop lookup indices are
out of bounds (modelled by `none`). -/
theorem c10_gradient_safety (lam : ℚ) (h : lam ≤ 0) :
    (1 ≤ gradientPos lam ∧ gradientPos lam ≤ 4)
    ∧ gradientPos lam - 1 < gradient.length ∧ gradientPos lam < gradient.length
    ∧ (color_gradient lam).isSome = true
    ∧ ranges.length = 6 ∧ gradient.length = 5
    ∧ gradientPos (5:ℚ) = 6 ∧ gradient.length ≤ gradientPos (5:ℚ) - 1
    ∧ color_gradient (5:ℚ) = none := by
  have h6 : gradientPos (5:ℚ) = 6 := gradientPos_eq_six (by norm_num)
  have hnone : color_gradient (5:ℚ) = none := by
    unfold color_gradient
    rw [h6, if_neg]
    rintro ⟨c1, -⟩
    rw [gradient_len] at c1
    omega
  have hmain : (1 ≤ gradientPos lam ∧ gradientPos lam ≤ 4)
      ∧ (color_gradient lam).isSome = true := by
    rcases le_or_lt lam (-3/2) with hc | hc
    · have hp := gradientPos_eq_one hc
      rw [hp, color_gradient_eq lam 1 hp (by omega) (by omega)]
      exact ⟨⟨by omega, by omega⟩, rfl⟩
    · rcases le_or_lt lam (-4/5) with hd | hd
      · have hp := gradientPos_eq_two hc hd
        rw [hp, color_gradient_eq lam 2 hp (by omega) (by omega)]
        exact ⟨⟨by omega, by omega⟩, rfl⟩
      · rcases le_or_lt lam (-1/5) with he | he
        · have hp := gradientPos_eq_three hd he
          rw [hp, color_gradient_eq lam 3 hp (by omega) (by omega)]
          exact ⟨⟨by omega, by omega⟩, rfl⟩
        · have hp := gradientPos_eq_four he h
          rw [hp, color_gradient_eq lam 4 hp (by omega) (by omega)]
          exact ⟨⟨by omega, by omega⟩, rfl⟩
  refine ⟨hmain.1, ?_, ?_, hmain.2, rfl, rfl, h6, ?_, hnone⟩
  · rw [gradient_len]
    omega
  · rw [gradient_len]
    omega
  · rw [h6, gradient_len]

/-- Witness for C10 at lambda = -1. -/
theorem c10_gradient_safety_witness :
    (1 ≤ gradientPos ((-1 : ℚ)) ∧ gradientPos ((-1 : ℚ)) ≤ 4)
    ∧ (color_gradient ((-1 : ℚ))).isSome = true
    ∧ gradientPos (5:ℚ) = 6 ∧ color_gradient (5:ℚ) = none := by
  obtain ⟨ha, -, -, hs, -, -, h6, -, hn⟩ := c10_gradient_safety (-1) (by norm_num)
  exact ⟨ha, hs, h6, hn⟩

/-- The two-branch update of source lines 80-85 is the pair (min, max). -/
theorem minMaxUpdate_eq (p : ℚ × ℚ) (lam : ℚ) :
    minMaxUpdate p lam = (min p.1 lam, max p.2 lam) := by
  unfold minMaxUpdate
  rcases le_or_lt p.1 lam with h | h
  · rw [if_neg (not_lt.mpr h), min_eq_left h]
    rcases le_or_lt lam p.2 with h2 | h2
    · rw [if_neg (not_lt.mpr h2), max_eq_left h2]
    · rw [if_pos h2, max_eq_right (le_of_lt h2)]
  · rw [if_pos h, min_eq_right (le_of_lt h)]
    rcases le_or_lt lam p.2 with h2 | h2
    · rw [if_neg (not_lt.mpr h2), max_eq_left h2]
    · rw [if_pos h2, max_eq_right (le_of_lt h2)]

theorem foldl_minMaxUpdate (l : List ℚ) :
    ∀ a b : ℚ, List.foldl minMaxUpdate (a, b) l
      = (List.foldl min a l, List.foldl max b l) := by
  induction l with
  | nil => intro a b; rfl
  | cons x xs ih =>
    intro a b
    rw [List.foldl_cons, List.foldl_cons, List.foldl_cons, minMaxUpdate_eq]
    exact ih _ _

theorem foldl_min_le_init (l : List ℚ) : ∀ a, List.foldl min a l ≤ a := by
  induction l with
  | nil => intro a; exact le_refl _
  | cons y ys ih =>
    intro a
    rw [List.foldl_cons]
    exact le_trans (ih _) (min_le_left _ _)

theorem foldl_min_le_mem (l : List ℚ) : ∀ a x, x ∈ l → List.foldl min a l ≤ x := by
  induction l with
  | nil => intro a x hx; cases hx
  | cons y ys ih =>
    intro a x hx
    rw [List.foldl_cons]
    rcases List.mem_cons.mp hx with rfl | hmem
    · exact le_trans (foldl_min_le_init ys _) (min_le_right _ _)
    · exact ih _ x hmem

theorem le_foldl_min (l : List ℚ) : ∀ a x, x ≤ a → (∀ y ∈ l, x ≤ y) → x ≤ List.foldl min a l := by
  induction l with
  | nil => intro a x hx _; exact hx
  | cons y ys ih =>
    intro a x hx hall
    rw [List.foldl_cons]
    exact ih _ x (le_min hx (hall y (List.mem_cons_self y _))) fun z hz => hall z (List.mem_cons_of_mem y hz)

theorem init_le_foldl_max (l : List ℚ) : ∀ a, a ≤ List.foldl max a l := by
  induction l with
  | nil => intro a; exact le_refl _
  | cons y ys ih =>
    intro a
    rw [List.foldl_cons]
    exact le_trans (le_max_left _ _) (ih _)

theorem mem_le_foldl_max (l : List ℚ) : ∀ a x, x ∈ l → x ≤ List.foldl max a l := by
  induction l with
  | nil => intro a x hx; cases hx
  | cons y ys ih =>
    intro a x hx
    rw [List.foldl_cons]
    rcases List.mem_cons.mp hx with rfl | hmem
    · exact le_trans (le_max_right _ _) (init_le_foldl_max ys _)
    · exact ih _ x hmem

theorem foldl_max_le (l : List ℚ) : ∀ a x, a ≤ x → (∀ y ∈ l, y ≤ x) → List.foldl max a l ≤ x := by
  induction l with
  | nil => intro a x hx _; exact hx
  | cons y ys ih =>
    intro a x hx hall
    rw [List.foldl_cons]
    exact ih _ x (max_le hx (hall y (List.mem_cons_self y _))) fun z hz => hall z (List.mem_cons_of_mem y hz)

/-- C4 counterexample: on a sweep whose processed lambdas are all negative
(here -1, -2, -3, with greatest value -1), the reported maximum is the
initial accumulator 0.0, not the greatest lambda produced by any pixel. -/
theorem c4_minmax_counterexample :
    (-1 : ℚ) ∈ [(-1 : ℚ), -2, -3]
    ∧ (∀ x ∈ [(-1 : ℚ), -2, -3], x ≤ -1)
    ∧ (reportMinMax [(-1 : ℚ), -2, -3]).2 = 0
    ∧ (reportMinMax [(-1 : ℚ), -2, -3]).2 ≠ -1 := by
  have heval : reportMinMax [(-1 : ℚ), -2, -3] = (-3, 0) := by
    norm_num [reportMinMax, minMaxUpdate]
  refine ⟨by norm_num, by norm_num, ?_, ?_⟩
  · rw [heval]
  · rw [heval]
    norm_num

/-- C4 amended: the reported pair is the fold of min starting at 5.0e5 and of
max starting at 0.0 over the processed lambdas; every processed lambda lies
within [reported min, reported max], and the reported min (resp. max) equals
the true least (resp. greatest) lambda whenever that true extremum is ≤ 5.0e5
(resp. ≥ 0); when every lambda is negative the reported max stays at the
initial 0.0. -/
theorem c4_minmax_amended (lams : List ℚ) :
    (reportMinMax lams).1 = List.foldl min (5 * 10^5) lams
    ∧ (reportMinMax lams).2 = List.foldl max 0 lams
    ∧ (∀ lam ∈ lams, (reportMinMax lams).1 ≤ lam ∧ lam ≤ (reportMinMax lams).2)
    ∧ (∀ m ∈ lams, (∀ y ∈ lams, m ≤ y) → m ≤ 5 * 10^5 → (reportMinMax lams).1 = m)
    ∧ (∀ m ∈ lams, (∀ y ∈ lams, y ≤ m) → 0 ≤ m → (reportMinMax lams).2 = m) := by
  unfold reportMinMax
  rw [foldl_minMaxUpdate lams (5 * 10^5) 0]
  refine ⟨rfl, rfl, ?_, ?_, ?_⟩
  · intro lam hmem
    exact ⟨foldl_min_le_mem lams _ lam hmem, mem_le_foldl_max lams _ lam hmem⟩
  · intro m hmem hall hle
    exact le_antisymm (foldl_min_le_mem lams _ m hmem) (le_foldl_min lams _ m hle hall)
  · intro m hmem hall hle
    exact le_antisymm (foldl_max_le lams _ m hle hall) (mem_le_foldl_max lams _ m hmem)

/-- Witness for the amended C4 at the concrete lambda list [-3, 2]. -/
theorem c4_minmax_amended_witness :
    (reportMinMax [(-3 : ℚ), 2]).1 = List.foldl min (5 * 10^5) [(-3 : ℚ), 2]
    ∧ (reportMinMax [(-3 : ℚ), 2]).1 ≤ -3
    ∧ (2 : ℚ) ≤ (reportMinMax [(-3 : ℚ), 2]).2
    ∧ (reportMinMax [(-3 : ℚ), 2]).2 = 2 := by
  obtain ⟨h1, -, h3, -, h5⟩ := c4_minmax_amended [(-3 : ℚ), 2]
  exact ⟨h1, (h3 (-3) (by norm_num)).1, (h3 2 (by norm_num)).2,
    h5 2 (by norm_num) (by norm_num) (by norm_num)⟩

/-- One unfolding of the estimator loop body (source lines 63-77). -/
theorem lyapGoCode_succ (log : ℚ → ℚ) (r : ℕ → ℚ) (fuel n : ℕ) (x lambda : ℚ) :
    lyapGoCode log r (fuel+1) n x lambda
      = if (if n > WARMUP ∨ x ≠ 1/2 then lambda + log (abs (r n * (1 - 2*x))) else lambda)
              > (10:ℚ)^12
          ∨ (if n > WARMUP ∨ x ≠ 1/2 then lambda + log (abs (r n * (1 - 2*x))) else lambda)
              < -(10:ℚ)^12
        then ((if n > WARMUP ∨ x ≠ 1/2 then lambda + log (abs (r n * (1 - 2*x))) else lambda),
              n+1)
        else lyapGoCode log r fuel (n+1) (r n * x * (1 - x))
          (if n > WARMUP ∨ x ≠ 1/2 then lambda + log (abs (r n * (1 - 2*x))) else lambda) := rfl

/-- One unfolding of the reference trajectory. -/
theorem lyapRef_succ (log : ℚ → ℚ) (r : ℕ → ℚ) (k : ℕ) :
    lyapRef log r (k+1)
      = (r k * (lyapRef log r k).1 * (1 - (lyapRef log r k).1),
         if k > WARMUP ∨ (lyapRef log r k).1 ≠ 1/2
         then (lyapRef log r k).2 + log (abs (r k * (1 - 2*(lyapRef log r k).1)))
         else (lyapRef log r k).2) := rfl

/-- The loop of source lines 63-77 and the loop of spec section 4.3 compute
the same state: the only difference is writing the divergence test of line 74
as `lambda > 1e12 || lambda < -1e12` versus `abs(lambda) > 1e12`. -/
theorem lyapGoCode_eq_spec (log : ℚ → ℚ) (r : ℕ → ℚ) :
    ∀ fuel n x lambda,
      lyapGoCode log r fuel n x lambda = lyapGoSpec log r WARMUP ((10:ℚ)^12) fuel n x lambda := by
  intro fuel
  induction fuel with
  | zero => intro n x lambda; rfl
  | succ fuel ih =>
    intro n x lambda
    simp only [lyapGoCode, lyapGoSpec]
    set L := if n > WARMUP ∨ x ≠ 1/2 then lambda + log (abs (r n * (1 - 2*x))) else lambda with hL
    by_cases hb : (10:ℚ)^12 < abs L
    · rw [if_pos ((divergeIff L ((10:ℚ)^12)).mpr hb), if_pos hb]
    · rw [if_neg (fun hc => hb ((divergeIff L ((10:ℚ)^12)).mp hc)), if_neg hb]
      exact ih (n+1) (r n * x * (1 - x)) L

/-- C1: the estimator follows the spec's algorithm exactly: starting from
x = 0.5 and lambda = 0, each step accumulates ln(abs(r(n)·(1-2x))) iff
n > warmup or x ≠ 0.5, then updates x := r(n)·x·(1-x) regardless, with r the
cyclic lookup values[n mod ruleLength], the divergence bound 1e12, and the
final division by (iterationDepth - warmup); the code equals the
spec-modelled estimator at iterationDepth = 300, warmup = 20. -/
theorem c1_estimator_refines_spec (log : ℚ → ℚ) (values : List ℚ) :
    lyapunovCode log values = lyapunovSpec log values ITERATION_DEPTH WARMUP ((10:ℚ)^12) := by
  unfold lyapunovCode lyapunovSpec lyapAcc lyapRun
  rw [lyapGoCode_eq_spec log (cyclicR values) ITERATION_DEPTH 0 (1/2) 0]
  norm_num [ITERATION_DEPTH, WARMUP]

/-- If the loop ends with fewer steps than its fuel allows, it broke on the
divergence test, so the final accumulated sum exceeds the bound. -/
theorem lyapGoCode_steps_lt (log : ℚ → ℚ) (r : ℕ → ℚ) :
    ∀ fuel n x lambda,
      (lyapGoCode log r fuel n x lambda).2 < n + fuel →
      (10:ℚ)^12 < abs (lyapGoCode log r fuel n x lambda).1 := by
  intro fuel
  induction fuel with
  | zero =>
    intro n x lambda h
    simp only [lyapGoCode] at h
    omega
  | succ fuel ih =>
    intro n x lambda h
    rw [lyapGoCode_succ] at h ⊢
    set L := if n > WARMUP ∨ x ≠ 1/2 then lambda + log (abs (r n * (1 - 2*x))) else lambda with hL
    by_cases hb : L > (10:ℚ)^12 ∨ L < -(10:ℚ)^12
    · rw [if_pos hb]
      exact (divergeIff L ((10:ℚ)^12)).mp hb
    · rw [if_neg hb] at h ⊢
      exact ih (n+1) (r n * x * (1 - x)) L (by omega)

/-- As long as the accumulated sum stays within the bound, the loop follows
the reference trajectory `lyapRef`. -/
theorem lyapGoCode_reach (log : ℚ → ℚ) (r : ℕ → ℚ) :
    ∀ k fuel, k ≤ fuel →
      (∀ j, j ≤ k → abs (lyapRef log r j).2 ≤ (10:ℚ)^12) →
      lyapGoCode log r fuel 0 (1/2) 0
        = lyapGoCode log r (fuel - k) k (lyapRef log r k).1 (lyapRef log r k).2 := by
  intro k
  induction k with
  | zero =>
    intro fuel _ _
    simp [lyapRef]
  | succ k ih =>
    intro fuel hk hb
    have hfst : (lyapRef log r (k+1)).1 = r k * (lyapRef log r k).1 * (1 - (lyapRef log r k).1) := by
      rw [lyapRef_succ]
    have hsnd : (lyapRef log r (k+1)).2
        = (if k > WARMUP ∨ (lyapRef log r k).1 ≠ 1/2
           then (lyapRef log r k).2 + log (abs (r k * (1 - 2*(lyapRef log r k).1)))
           else (lyapRef log r k).2) := by
      rw [lyapRef_succ]
    rw [ih fuel (by omega) (fun j hj => hb j (by omega))]
    have hfs : fuel - k = (fuel - (k+1)) + 1 := by omega
    rw [hfs, lyapGoCode_succ, ← hsnd, ← hfst]
    rw [if_neg]
    rintro (hc | hc)
    · have := hb (k+1) (le_refl _)
      have habs := le_abs_self (lyapRef log r (k+1)).2
      linarith
    · have := hb (k+1) (le_refl _)
      have habs := neg_abs_le (lyapRef log r (k+1)).2
      linarith

/-- C2: the final normalization always divides the accumulated sum by the
full (iterationDepth - warmup) = 280; an early loop exit happens only when
the accumulated sum exceeds the divergence bound 1e12, and whenever the
accumulated trajectory first exceeds the bound at a step before
iterationDepth the loop stops right there, with the partial sum still
divided by 280. -/
theorem c2_early_stop_fixed_divisor (log : ℚ → ℚ) (values : List ℚ) :
    lyapunovCode log values = lyapAcc log values / ((ITERATION_DEPTH - WARMUP : ℕ) : ℚ)
    ∧ ((ITERATION_DEPTH - WARMUP : ℕ) : ℚ) = 280
    ∧ (lyapSteps log values < ITERATION_DEPTH → (10:ℚ)^12 < abs (lyapAcc log values))
    ∧ (∀ k : ℕ, k + 1 < ITERATION_DEPTH →
        (∀ j, j ≤ k → abs (lyapRef log (cyclicR values) j).2 ≤ (10:ℚ)^12) →
        (10:ℚ)^12 < abs (lyapRef log (cyclicR values) (k+1)).2 →
        lyapSteps log values = k + 1
          ∧ lyapAcc log values = (lyapRef log (cyclicR values) (k+1)).2) := by
  have hIT : ITERATION_DEPTH = 300 := rfl
  refine ⟨rfl, by norm_num [ITERATION_DEPTH, WARMUP], ?_, ?_⟩
  · intro h
    unfold lyapSteps lyapRun at h
    unfold lyapAcc lyapRun
    exact lyapGoCode_steps_lt log (cyclicR values) ITERATION_DEPTH 0 (1/2) 0 (by omega)
  · intro k hk hb hdiv
    have hreach := lyapGoCode_reach log (cyclicR values) k ITERATION_DEPTH (by omega) hb
    have hfst : (lyapRef log (cyclicR values) (k+1)).1
        = cyclicR values k * (lyapRef log (cyclicR values) k).1
            * (1 - (lyapRef log (cyclicR values) k).1) := by
      rw [lyapRef_succ]
    have hsnd : (lyapRef log (cyclicR values) (k+1)).2
        = (if k > WARMUP ∨ (lyapRef log (cyclicR values) k).1 ≠ 1/2
           then (lyapRef log (cyclicR values) k).2
                  + log (abs (cyclicR values k * (1 - 2*(lyapRef log (cyclicR values) k).1)))
           else (lyapRef log (cyclicR values) k).2) := by
      rw [lyapRef_succ]
    have hfs : ITERATION_DEPTH - k = (ITERATION_DEPTH - (k+1)) + 1 := by omega
    have hcond : (lyapRef log (cyclicR values) (k+1)).2 > (10:ℚ)^12
        ∨ (lyapRef log (cyclicR values) (k+1)).2 < -(10:ℚ)^12 :=
      (divergeIff ((lyapRef log (cyclicR values) (k+1)).2) ((10:ℚ)^12)).mpr hdiv
    have hrun : lyapRun log values = ((lyapRef log (cyclicR values) (k+1)).2, k+1) := by
      unfold lyapRun
      rw [hreach, hfs, lyapGoCode_succ, ← hsnd, ← hfst, if_pos hcond]
    constructor
    · unfold lyapSteps
      rw [hrun]
    · unfold lyapAcc
      rw [hrun]

/-- Witness for C2: with rule value 4 and an abstract log returning 2e12, the
trajectory leaves x = 0.5 at step 1, accumulates once, exceeds the bound, and
the loop stops after 2 of the 300 iterations while the divisor stays 280. -/
theorem c2_early_stop_fixed_divisor_witness :
    lyapSteps (fun _ => 2 * 10^12) [4] = 2
    ∧ lyapSteps (fun _ => 2 * 10^12) [4] < ITERATION_DEPTH
    ∧ lyapunovCode (fun _ => 2 * 10^12) [4]
        = lyapAcc (fun _ => 2 * 10^12) [4] / ((ITERATION_DEPTH - WARMUP : ℕ) : ℚ)
    ∧ (10:ℚ)^12 < abs (lyapAcc (fun _ => 2 * 10^12) [4]) := by
  obtain ⟨h1, -, h3, h4⟩ := c2_early_stop_fixed_divisor (fun _ => 2 * 10^12) [4]
  have hk := h4 1 (by norm_num [ITERATION_DEPTH])
    (by
      intro j hj
      interval_cases j <;> norm_num [lyapRef, cyclicR, WARMUP])
    (by norm_num [lyapRef, cyclicR, WARMUP])
  refine ⟨hk.1, ?_, h1, h3 ?_⟩
  · rw [hk.1]
    norm_num [ITERATION_DEPTH]
  · rw [hk.1]
    norm_num [ITERATION_DEPTH]

/-- A rule containing a symbol other than 'A'/'B' makes the per-pixel
sequence resolution of source lines 50-57 panic. -/
theorem resolveSequence_error (a b : ℚ) :
    ∀ rule : List Char, (∃ c ∈ rule, c ≠ 'A' ∧ c ≠ 'B') →
      resolveSequence a b rule = Except.error RenderError.invalidSequenceSymbol := by
  intro rule
  induction rule with
  | nil =>
    rintro ⟨c, hc, -⟩
    cases hc
  | cons d ds ih =>
    rintro ⟨c, hc, hA, hB⟩
    rcases List.mem_cons.mp hc with rfl | hmem
    · unfold resolveSequence
      rw [if_neg hA, if_neg hB]
    · unfold resolveSequence
      by_cases hdA : d = 'A'
      · rw [if_pos hdA, ih ⟨c, hmem, hA, hB⟩]
        rfl
      · by_cases hdB : d = 'B'
        · rw [if_neg hdA, if_pos hdB, ih ⟨c, hmem, hA, hB⟩]
          rfl
        · rw [if_neg hdA, if_neg hdB]

theorem sweep_cons_error (log : ℚ → ℚ) (rule : List Char) (i : ℕ) (is : List ℕ)
    (h : processPixel log rule i = Except.error RenderError.invalidSequenceSymbol) :
    sweep log rule (i :: is) = Except.error RenderError.invalidSequenceSymbol := by
  unfold sweep
  rw [h]

/-- C3 counterexample: an invalid symbol is a fault raised during the
per-pixel processing of the sweep — the pipeline of the very first pixel
(index 0) is what fails, because the rule is re-resolved for every pixel;
there is no separate rule-validation phase before the sweep. -/
theorem c3_invalid_symbol_counterexample :
    processPixel (fun _ => 0) ['C'] 0 = Except.error RenderError.invalidSequenceSymbol := rfl

/-- C3 amended: a rule with a symbol other than 'A'/'B' aborts the whole run
with the invalid-symbol failure, surfaced exactly once — but the failure
arises inside the sweep, during the per-pixel sequence resolution of the
first pixel processed (indeed of every pixel, since the rule is re-resolved
per pixel), not at a rule-parse/validation step before the sweep. -/
theorem c3_invalid_symbol_amended (log : ℚ → ℚ) (rule : List Char)
    (h : ∃ c ∈ rule, c ≠ 'A' ∧ c ≠ 'B') :
    (∀ i, processPixel log rule i = Except.error RenderError.invalidSequenceSymbol)
    ∧ render log rule = Except.error RenderError.invalidSequenceSymbol := by
  have hpix : ∀ i, processPixel log rule i = Except.error RenderError.invalidSequenceSymbol := by
    intro i
    unfold processPixel
    rw [resolveSequence_error (pixelA i) (pixelB i) rule h]
  refine ⟨hpix, ?_⟩
  unfold render
  have hWH : WIDTH * HEIGHT = 639999 + 1 := by norm_num [WIDTH, HEIGHT]
  rw [hWH, List.range_succ_eq_map]
  exact sweep_cons_error log rule 0 _ (hpix 0)

/-- Witness for the amended C3 at the concrete rule "X". -/
theorem c3_invalid_symbol_amended_witness :
    processPixel (fun _ => 0) ['X'] 7 = Except.error RenderError.invalidSequenceSymbol
    ∧ render (fun _ => 0) ['X'] = Except.error RenderError.invalidSequenceSymbol :=
  ⟨(c3_invalid_symbol_amended (fun _ => 0) ['X'] (by decide)).1 7,
   (c3_invalid_symbol_amended (fun _ => 0) ['X'] (by decide)).2⟩

end Ljapunow
